import Mathlib

/-!
Verification development for the reeltoolkit-renderer core
(`reel_renderer/parallel.py` and `reel_renderer/subtitles.py`).

The Python functions are shallowly embedded as executable Lean definitions:
machine floats become exact rationals (ℚ), Python strings become `List Char`
(or `String` where no character-level reasoning is needed), fallible paths
become `Option`/`Except`, and the external-process side effects are abstracted
by their observable plan (which command shape would be issued) or by per-slide
outcome flags.  Python `round` is round-half-to-even, modelled by
`python_round`; Python `int(...)` truncation on non-negative values is `Int.floor`.
-/

/-- Floor of a rational as an integer, computed on the reduced fraction
(`Int.fdiv` is floor division; the denominator is positive). -/
def pyFloor (q : ℚ) : ℤ := Int.fdiv q.num (q.den : ℤ)

/-- Python's `round` on a rational: round half to even (banker's rounding).
The fractional part of `q` is `(q.num - pyFloor q * q.den) / q.den`, so the
comparisons with 1/2 are done on cross-multiplied integers. -/
def python_round (q : ℚ) : ℤ :=
  let d : ℤ := (q.den : ℤ)
  let f : ℤ := pyFloor q
  let rnum : ℤ := q.num - f * d
  if 2 * rnum < d then f
  else if d < 2 * rnum then f + 1
  else if f % 2 = 0 then f else f + 1

/-- `_clamp(value, lower, upper)` from `parallel.py`: `max(lower, min(upper, value))`. -/
def pyClamp (value lower upper : ℚ) : ℚ := max lower (min upper value)

/-- The whitespace characters stripped by Python's `str.strip()` (ASCII fragment). -/
def isSpaceChar (c : Char) : Bool :=
  c = ' ' || c = '\t' || c = '\n' || c = '\x0d' || c = '\x0b' || c = '\x0c'

/-- Python `str.strip()` on a character list: drop whitespace from both ends. -/
def trimChars (l : List Char) : List Char :=
  ((l.dropWhile isSpaceChar).reverse.dropWhile isSpaceChar).reverse

/-- Boolean "the first list is a leading segment of the second"
(Python `str.startswith`). -/
def startsWithChars : List Char → List Char → Bool
  | [], _ => true
  | _ :: _, [] => false
  | a :: as, b :: bs => a = b && startsWithChars as bs

/-- Python `str.split(sep)` for a one-character separator:
`"a,,b" → ["a", "", "b"]`. -/
def splitOnChar (sep : Char) : List Char → List (List Char)
  | [] => [[]]
  | c :: rest =>
    let r := splitOnChar sep rest
    if c = sep then [] :: r
    else
      match r with
      | [] => [[c]]
      | h :: t => (c :: h) :: t

/-- A decimal-rational fragment of Python `float()`: optional sign, digits,
optional dot, digits (at least one digit overall).  The exponent / `inf` /
`nan` / underscore forms accepted by CPython are outside the inputs this
program feeds to `float()` after stripping and are not modelled. -/
def parseDecimal? (l : List Char) : Option ℚ :=
  let core : List Char → Option ℚ := fun s =>
    let intPart := s.takeWhile Char.isDigit
    let rest := s.dropWhile Char.isDigit
    match rest with
    | [] =>
      if intPart = [] then none
      else some ((intPart.foldl (fun acc c => acc * 10 + (c.toNat - '0'.toNat)) 0 : ℕ) : ℚ)
    | '.' :: frac =>
      if frac.all Char.isDigit ∧ (intPart ≠ [] ∨ frac ≠ []) then
        let ip : ℕ := intPart.foldl (fun acc c => acc * 10 + (c.toNat - '0'.toNat)) 0
        let fp : ℕ := frac.foldl (fun acc c => acc * 10 + (c.toNat - '0'.toNat)) 0
        some ((ip : ℚ) + (fp : ℚ) / ((10 : ℚ) ^ frac.length))
      else none
    | _ => none
  match l with
  | '-' :: rest => (core rest).map (fun q => -q)
  | '+' :: rest => core rest
  | s => core s

/-- `_parse_rgb_component` from `parallel.py`: percent, fractional-float and
integer forms, clamped into `[0, 255]` and rounded; a parse failure yields 0. -/
def parse_rgb_component (comp : List Char) : ℤ :=
  let value := trimChars comp
  if value = [] then 0
  else if value.getLast? = some '%' then
    match parseDecimal? (value.dropLast) with
    | none => 0
    | some percent => python_round (pyClamp percent 0 100 * 255 / 100)
  else if value.contains '.' then
    match parseDecimal? value with
    | none => 0
    | some f =>
      if 0 ≤ f ∧ f ≤ 1 then python_round (pyClamp f 0 1 * 255)
      else python_round (pyClamp f 0 255)
  else
    match parseDecimal? value with
    | none => 0
    | some f => python_round (pyClamp f 0 255)

/-- `_parse_alpha_component` from `parallel.py`: like the RGB parser but the
empty/unparseable default is 255 and the fractional form needs no dot check. -/
def parse_alpha_component (comp : List Char) : ℤ :=
  let value := trimChars comp
  if value = [] then 255
  else if value.getLast? = some '%' then
    match parseDecimal? (value.dropLast) with
    | none => 255
    | some percent => python_round (pyClamp percent 0 100 * 255 / 100)
  else
    match parseDecimal? value with
    | none => 255
    | some f =>
      if 0 ≤ f ∧ f ≤ 1 then python_round (pyClamp f 0 1 * 255)
      else python_round (pyClamp f 0 255)

/-- Uppercase hexadecimal digit for `0 ≤ d < 16` (Python `"%02X"` digits). -/
def hexDigitUpper (d : ℕ) : Char :=
  if d < 10 then Char.ofNat ('0'.toNat + d) else Char.ofNat ('A'.toNat + d - 10)

/-- Python `f"{n:02X}"` for a component already clamped into `[0, 255]`. -/
def hexPair (n : ℤ) : List Char :=
  [hexDigitUpper (n.toNat / 16 % 16), hexDigitUpper (n.toNat % 16)]

/-- The group captured by `re.fullmatch(r"rgba?\(([^)]+)\)", candidate, IGNORECASE)`:
`some body` when the candidate is `rgb(` or `rgba(` (any letter case), a
non-empty run of characters other than a closing parenthesis, then the final
closing parenthesis. -/
def rgbaInner (candidate : List Char) : Option (List Char) :=
  let lowered := candidate.map Char.toLower
  let check : List Char → Option (List Char) := fun rest =>
    if rest.getLast? = some ')' ∧ rest.dropLast ≠ [] ∧ rest.dropLast.all (fun c => c ≠ ')')
    then some rest.dropLast else none
  if startsWithChars ("rgba(".toList) lowered then check (candidate.drop 5)
  else if startsWithChars ("rgb(".toList) lowered then check (candidate.drop 4)
  else none

/-- `[part.strip() for part in group.split(",") if part.strip()]`. -/
def splitCommaStrip (body : List Char) : List (List Char) :=
  ((splitOnChar ',' body).map trimChars).filter (fun p => p ≠ [])

/-- The `candidate.startswith("#")` section of `_normalize_ffmpeg_color`
(`parallel.py` lines 99–109): strip the leading hashes, double a 3/4-digit
shorthand, accept a 6/8-character value (uppercased, `0x`-prefixed) and
degrade anything else to `"black"`.  The characters are not validated as hex
digits, only counted. -/
def hex_color_branch (candidate : List Char) : List Char :=
  let hexValue := candidate.dropWhile (fun c => c = '#')
  let hexValue2 :=
    if hexValue.length = 3 ∨ hexValue.length = 4 then hexValue.flatMap (fun c => [c, c])
    else hexValue
  if hexValue2.length = 6 ∨ hexValue2.length = 8 then '0' :: 'x' :: hexValue2.map Char.toUpper
  else "black".toList

/-- The `rgba?(...)` section of `_normalize_ffmpeg_color` (`parallel.py`
lines 111–124) applied to the captured group: fewer than three stripped
non-empty components degrade to `"black"`; otherwise the components are
parsed, clamped and formatted as `0xRRGGBB[AA]` (alpha 255 omitted). -/
def rgba_color_branch (body : List Char) : List Char :=
  let parts := splitCommaStrip body
  if 3 ≤ parts.length then
    let r := parse_rgb_component (parts.getD 0 [])
    let g := parse_rgb_component (parts.getD 1 [])
    let b := parse_rgb_component (parts.getD 2 [])
    let a := if 4 ≤ parts.length then parse_alpha_component (parts.getD 3 []) else 255
    if a = 255 then '0' :: 'x' :: (hexPair r ++ hexPair g ++ hexPair b)
    else '0' :: 'x' :: (hexPair r ++ hexPair g ++ hexPair b ++ hexPair a)
  else "black".toList

/-- `_normalize_ffmpeg_color` from `parallel.py` (lines 84–130), branch for
branch on `List Char`.  The Python function is total (every parse failure
falls through to `"black"`), which the embedding reflects by being a plain
function. -/
def normalize_ffmpeg_color (color : List Char) : List Char :=
  if color = [] then "black".toList
  else if trimChars color = [] then "black".toList
  else if (trimChars color).map Char.toLower = "transparent".toList then "0x00000000".toList
  else if startsWithChars ['0', 'x'] (trimChars color)
      || startsWithChars ['0', 'X'] (trimChars color) then trimChars color
  else if (trimChars color).head? = some '#' then hex_color_branch (trimChars color)
  else
    match rgbaInner (trimChars color) with
    | some body => rgba_color_branch body
    | none =>
      if (trimChars color).all Char.isAlpha then (trimChars color).map Char.toLower
      else "black".toList

/-- `_get_quality_resolution` from `parallel.py` (lines 196–211).  The float
`aspect = width / height` is modelled as the exact rational; Python `int()`
truncation on the non-negative products is `Int.floor`.  A zero height or
width would raise `ZeroDivisionError` in Python; the claims only quantify
over positive dimensions. -/
def get_quality_resolution (width height : ℕ) (quality : String) : ℕ × ℕ :=
  if quality = "final" then (width, height)
  else
    let aspect : ℚ := (width : ℚ) / (height : ℚ)
    let dims : ℕ × ℕ :=
      if 1 < aspect then ((⌊(540 : ℚ) * aspect⌋).toNat, 540)
      else (540, (⌊(540 : ℚ) / aspect⌋).toNat)
    (dims.1 + dims.1 % 2, dims.2 + dims.2 % 2)

/-- A resolved boundary transition: the `{"type": ..., "duration": ...}` dict
built by `_parse_transition_spec` / the boundary loop of
`render_video_parallel`. -/
structure TransitionReq where
  ttype : String
  duration : ℚ
deriving DecidableEq

/-- The `transition` sub-dictionary of a slide's motion dict, as read by
`_parse_transition_spec`: `rawType` is `transition.get("type")` (`none` for an
absent or `None` value, which Python's `or ""` turns into the empty string);
`rawDuration` is the result of `float(transition.get("duration", 0.0))` —
`some q` when the conversion succeeds (an absent key defaults to `0.0`),
`none` when it raises `TypeError`/`ValueError`. -/
structure TransitionRaw where
  rawType : Option String
  rawDuration : Option ℚ
deriving DecidableEq

/-- `_parse_transition_spec` from `parallel.py` (lines 219–239).  `none` for
the `motion` argument covers both a non-dict motion and a non-dict
`transition` entry. -/
def parse_transition_spec (motion : Option TransitionRaw) : Option TransitionReq :=
  match motion with
  | none => none
  | some t =>
    let typeStr := (t.rawType.getD "").trim.toLower
    if typeStr = "fade" ∨ typeStr = "crossfade" ∨ typeStr = "dissolve" then
      match t.rawDuration with
      | none => none
      | some d => if d ≤ 0 then none else some ⟨typeStr, d⟩
    else none

/-- The boundary-resolution loop of `render_video_parallel` (`parallel.py`
lines 595–616): for each adjacent pair `(idx, idx+1)` take the outgoing
slide's parsed transition, falling back to the incoming slide's own parsed
transition; clamp the requested duration to both adjacent slide durations and
drop the boundary when the clamped duration is not positive. -/
def resolve_boundaries (transition_specs : List (Option TransitionReq))
    (durations : List ℚ) : List (Option TransitionReq) :=
  (List.range (durations.length - 1)).map (fun idx =>
    let chosen :=
      match transition_specs.getD idx none with
      | some t => some t
      | none => transition_specs.getD (idx + 1) none
    match chosen with
    | none => none
    | some t =>
      let d := min (min t.duration (durations.getD idx 0)) (durations.getD (idx + 1) 0)
      if 0 < d then some ⟨t.ttype, d⟩ else none)

/-- One join operation of the chained filter graph in `concat_videos_ffmpeg`:
either an `xfade`/`acrossfade` blend (with its mapped transition name, clamped
duration and offset) or a hard `concat` join. -/
inductive JoinStep where
  | blend (ttype : String) (duration offset : ℚ)
  | hard
deriving DecidableEq

/-- `_TRANSITION_TYPE_MAP.get(transition_type, "fade")` from `parallel.py`. -/
def transition_type_map (t : String) : String :=
  if t = "fade" then "fade"
  else if t = "crossfade" then "fade"
  else if t = "dissolve" then "dissolve"
  else "fade"

/-- The boundary loop of `concat_videos_ffmpeg` (`parallel.py` lines 452–495)
over the remaining durations (`idx` counts from 1 as in the source, `current`
is the running `current_duration`).  Each emitted pair is the join step for
that boundary together with the value of `current_duration` after it. -/
def concat_steps_go (transitions : List (Option TransitionReq)) (idx : ℕ)
    (current : ℚ) : List ℚ → List (JoinStep × ℚ)
  | [] => []
  | d :: rest =>
    match transitions.getD (idx - 1) none with
    | some t =>
      if t.duration ≤ 0 then
        (JoinStep.hard, current + d) :: concat_steps_go transitions (idx + 1) (current + d) rest
      else
        let dur := min (min t.duration current) d
        let off := max (current - dur) 0
        (JoinStep.blend (transition_type_map t.ttype) dur off, current + d - dur)
          :: concat_steps_go transitions (idx + 1) (current + d - dur) rest
    | none =>
      (JoinStep.hard, current + d) :: concat_steps_go transitions (idx + 1) (current + d) rest

/-- The full boundary loop: `current_duration` starts at `durations[0]`. -/
def concat_steps (transitions : List (Option TransitionReq))
    (durations : List ℚ) : List (JoinStep × ℚ) :=
  match durations with
  | [] => []
  | d0 :: rest => concat_steps_go transitions 1 d0 rest

/-- The value of `current_duration` after the whole loop of
`concat_videos_ffmpeg` (equal to `durations[0]` when there is no boundary). -/
def final_duration (transitions : List (Option TransitionReq))
    (durations : List ℚ) : ℚ :=
  match durations with
  | [] => 0
  | d0 :: _ => ((concat_steps transitions durations).map Prod.snd).getLastD d0

/-- The observable plan chosen by `concat_videos_ffmpeg` (`parallel.py` lines
377–544): the stream-copy concat-demuxer command, the re-encoding
filter-graph command (with its join steps), or one of its failure reports.
`missingDurations` covers the mismatched/absent duration list (lines
432–441); `noFilters` covers "no filter parts were generated" (lines
497–499, which in Python also absorbs the `durations[0]` lookup on an empty
list via the enclosing `except`). -/
inductive ConcatPlan where
  | streamCopy (paths : List String)
  | reencode (steps : List JoinStep)
  | missingDurations
  | noFilters
deriving DecidableEq

/-- The control flow of `concat_videos_ffmpeg`: `has_transition =
any(transitions)` — a dict entry (`some`) is truthy, `None` is falsy — picks
stream copy versus the filter graph; the filter path then validates the
duration list and builds the chained steps. -/
def concat_videos_plan (video_paths : List String)
    (transitions : List (Option TransitionReq))
    (durations : Option (List ℚ)) : ConcatPlan :=
  if transitions.any Option.isSome = false then ConcatPlan.streamCopy video_paths
  else
    match durations with
    | none => ConcatPlan.missingDurations
    | some ds =>
      if ¬ ds.length = video_paths.length then ConcatPlan.missingDurations
      else
        let steps := concat_steps transitions ds
        if steps.isEmpty then ConcatPlan.noFilters
        else ConcatPlan.reencode (steps.map Prod.fst)

/-- Python `f"{idx:03d}"`: decimal digits, zero-padded on the left to width 3. -/
def pad3 (n : ℕ) : String :=
  let s := toString n
  if s.length < 3 then String.mk (List.replicate (3 - s.length) '0') ++ s else s

/-- `os.path.join(work_dir, f"slide_{idx:03d}.mp4")` from
`render_slides_parallel` (POSIX join). -/
def slide_output_path (work_dir : String) (idx : ℕ) : String :=
  work_dir ++ "/slide_" ++ pad3 idx ++ ".mp4"

/-- The failure-collection loop of `render_slides_parallel` (`parallel.py`
lines 359–362): the indices whose gathered result is an exception or
`False`. -/
def failed_indices (outcomes : List Bool) : List ℕ :=
  (List.range outcomes.length).filter (fun idx => outcomes.getD idx true = false)

/-- `render_slides_parallel` (`parallel.py` lines 341–367).  The bounded
fan-out is abstracted by `outcomes`: entry `i` is the success flag of slide
`i`'s `_render_slide_ffmpeg` invocation (an in-task exception counts as
`false`); `asyncio.gather` returns results in task (input) order, so the
position in the list is the slide index.  On any failure the function raises
(`Except.error` with the failed indices) and returns no paths. -/
def render_slides_parallel (work_dir : String) (outcomes : List Bool) :
    Except (List ℕ) (List String) :=
  let output_paths := (List.range outcomes.length).map (slide_output_path work_dir)
  let failed := failed_indices outcomes
  if failed.isEmpty then Except.ok output_paths else Except.error failed

/-- The duration-resolution chain of `generate_ass_karaoke` (`subtitles.py`
lines 87–117) before the positivity correction: an explicit parseable
`duration` field wins; else `max(0, end − start)` when `end` is parseable;
else the audio-source duration when an `audio_path` is given; else the
estimate `max(1.0, 0.06 × len(trimmed_text))`. -/
def chunk_pre_duration (durationField endField : Option ℚ) (start : ℚ)
    (audioDur : Option ℚ) (textLen : ℕ) : ℚ :=
  match durationField with
  | some d => d
  | none =>
    match endField with
    | some e => max 0 (e - start)
    | none =>
      match audioDur with
      | some a => a
      | none => max 1 ((textLen : ℚ) * (6 / 100))

/-- The replacement used by line 120 of `subtitles.py`:
`max(0.5, len(trimmed_text) * 0.06 or 1.0)` — the Python `or` yields `1.0`
exactly when `len(trimmed_text) * 0.06` is `0.0`, i.e. when the text is
empty. -/
def chunk_estimate_fallback (textLen : ℕ) : ℚ :=
  max (1/2) (if textLen = 0 then 1 else (textLen : ℚ) * (6 / 100))

/-- Lines 87–120 of `subtitles.py` in full: the resolution chain followed by
the non-positive correction (`not duration or duration <= 0` collapses to
`duration ≤ 0` over exact rationals; IEEE `NaN`, which Python's check would
let through, has no rational counterpart). -/
def resolve_chunk_duration (durationField endField : Option ℚ) (start : ℚ)
    (audioDur : Option ℚ) (textLen : ℕ) : ℚ :=
  let d := chunk_pre_duration durationField endField start audioDur textLen
  if d ≤ 0 then chunk_estimate_fallback textLen else d

/-- `chunk_start = timeline_offset + max(0.0, entry["start"])`
(`subtitles.py` line 149). -/
def chunk_abs_start (offset start : ℚ) : ℚ := offset + max 0 start

/-- `chunk_end = timeline_offset + max(chunk_start, entry["end"])`
(`subtitles.py` line 150), exactly as written: the second operand of the
`max` is the chunk's intra-slide end while the first is the already
offset-shifted absolute start. -/
def chunk_abs_end (offset start endv : ℚ) : ℚ :=
  offset + max (chunk_abs_start offset start) endv

/-- `re.findall(r"\S+", line)`: maximal runs of non-whitespace characters. -/
def split_words_go : List Char → List Char → List (List Char)
  | [], acc => if acc.isEmpty then [] else [acc.reverse]
  | c :: rest, acc =>
    if isSpaceChar c then
      if acc.isEmpty then split_words_go rest [] else acc.reverse :: split_words_go rest []
    else split_words_go rest (c :: acc)

/-- Tokenize a subtitle line into words (`subtitles.py` line 155). -/
def split_words (l : List Char) : List (List Char) := split_words_go l []

/-- The ASCII fragment of the regex class `\w` (`subtitles.py` line 166
strips `\W`). -/
def isWordChar (c : Char) : Bool := c.isAlphanum || c = '_'

/-- `max(1, len(re.sub(r"\W", "", token)))` (`subtitles.py` line 166). -/
def word_weight (token : List Char) : ℕ := max 1 (token.filter isWordChar).length

/-- The word-weight list of a chunk's token sequence. -/
def word_weights (text : List Char) : List ℕ := (split_words text).map word_weight

/-- Round-half-to-even of the fraction `n / d` for `d > 0`, on integers.  All
comparisons are homogeneous in `(n, d)`, so the result only depends on the
value of the fraction (no reduction needed). -/
def python_round_frac (n d : ℤ) : ℤ :=
  let f : ℤ := Int.fdiv n d
  let rnum : ℤ := n - f * d
  if 2 * rnum < d then f
  else if d < 2 * rnum then f + 1
  else if f % 2 = 0 then f else f + 1

/-- `total_len = sum(lengths) or len(words) or 1` (`subtitles.py` line 167). -/
def total_weight (ws : List ℕ) : ℕ :=
  if ws.sum ≠ 0 then ws.sum else if ws.length ≠ 0 then ws.length else 1

/-- `alloc[-1] += diff` (`subtitles.py` line 172). -/
def add_to_last (l : List ℤ) (d : ℤ) : List ℤ :=
  match l with
  | [] => []
  | [x] => [x + d]
  | x :: y :: rest => x :: add_to_last (y :: rest) d

/-- Lines 169–172 of `subtitles.py`: per-word reveal centiseconds
`max(1, round(total_cs × weight / total_len))`, with the rounding remainder
added to the last word.  `round` of the exact fraction is
`python_round_frac` on the unreduced numerator and denominator. -/
def word_allocations (ws : List ℕ) (total_cs : ℤ) : List ℤ :=
  let tl := total_weight ws
  let alloc := ws.map (fun (w : ℕ) => max 1 (python_round_frac (total_cs * (w : ℤ)) (tl : ℤ)))
  let diff := total_cs - alloc.sum
  if diff = 0 then alloc else add_to_last alloc diff

/-- `total_cs = max(1, int(round(chunk_duration * 100)))` (`subtitles.py`
line 168): `q * 100 = (100 * q.num) / q.den` as an unreduced fraction. -/
def total_centiseconds (dur : ℚ) : ℤ :=
  max 1 (python_round_frac (dur.num * 100) (dur.den : ℤ))

/-- All characters Python accepts as hexadecimal digits. -/
def hexDigitList : List Char := "0123456789abcdefABCDEF".toList

/-- Numeric value of a hexadecimal digit (0 for anything else). -/
def hexVal (c : Char) : ℕ :=
  if c.isDigit then c.toNat - '0'.toNat
  else if 'a' ≤ c ∧ c ≤ 'f' then c.toNat - 'a'.toNat + 10
  else if 'A' ≤ c ∧ c ≤ 'F' then c.toNat - 'A'.toNat + 10
  else 0

/-! ### Generic list helpers used in the branch-walking proofs -/

theorem dropWhile_all_false {p : Char → Bool} {l : List Char}
    (h : ∀ c ∈ l, p c = false) : l.dropWhile p = l := by
  cases l with
  | nil => rfl
  | cons c t => simp [List.dropWhile_cons, h c (by simp)]

theorem trimChars_eq_self {l : List Char}
    (h : ∀ c ∈ l, isSpaceChar c = false) : trimChars l = l := by
  unfold trimChars
  rw [dropWhile_all_false h,
    dropWhile_all_false (fun c hc => h c (List.mem_reverse.mp hc)),
    List.reverse_reverse]

theorem startsWithChars_cons {a : Char} {as l : List Char}
    (h : startsWithChars (a :: as) l = true) : ∃ t, l = a :: t := by
  cases l with
  | nil => simp [startsWithChars] at h
  | cons b t =>
    simp only [startsWithChars, Bool.and_eq_true, decide_eq_true_eq] at h
    exact ⟨t, by rw [h.1]⟩

theorem transparent_toList :
    "transparent".toList = ['t', 'r', 'a', 'n', 's', 'p', 'a', 'r', 'e', 'n', 't'] := by rfl

theorem map_toLower_ne_transparent {c : Char} {t : List Char}
    (hc : Char.toLower c ≠ 't') :
    (c :: t).map Char.toLower ≠ "transparent".toList := by
  rw [transparent_toList]
  intro h
  rw [List.map_cons] at h
  exact hc (List.head_eq_of_cons_eq h)

theorem getD_map_range {α : Type} (f : ℕ → α) (n i : ℕ) (h : i < n) (d : α) :
    ((List.range n).map f).getD i d = f i := by
  rw [List.getD_eq_getElem?_getD, List.getElem?_map, List.getElem?_range h]
  rfl

/-! ### The Color Normalizer claims -/

theorem hex_digit_facts :
    ∀ c ∈ hexDigitList,
      isSpaceChar c = false ∧ (c = '#') = false ∧ hexVal (Char.toUpper c) = hexVal c := by
  decide

example : normalize_ffmpeg_color "Transparent".toList = "0x00000000".toList := by decide
example : normalize_ffmpeg_color "#12345".toList = "black".toList := by decide
example : normalize_ffmpeg_color "rgba(1,2)".toList = "black".toList := by decide
example : normalize_ffmpeg_color "#a1b2c3".toList = "0xA1B2C3".toList := by decide
example : normalize_ffmpeg_color "rgb(255, 0, 10)".toList = "0xFF000A".toList := by decide
example : normalize_ffmpeg_color "  0xZZ ".toList = "0xZZ".toList := by decide
example : normalize_ffmpeg_color "white".toList = "white".toList := by decide
example : normalize_ffmpeg_color "#abc".toList = "0xAABBCC".toList := by decide

/-- C7: the Color Normalizer is a total function and: `"transparent"`
(case-insensitive, after stripping) maps to `"0x00000000"`; a `#`-value whose
stripped digit count is not 3, 4, 6 or 8 maps to `"black"`; an `rgb()/rgba()`
string with fewer than three components maps to `"black"`; and every 6-hex-digit
`#RRGGBB` input maps to the `0x`-token with the same digits uppercased,
preserving each digit's hexadecimal value (hence the same RGB triple). -/
theorem color_normalizer_contract :
    (∀ l : List Char, (trimChars l).map Char.toLower = "transparent".toList →
        normalize_ffmpeg_color l = "0x00000000".toList)
    ∧ (∀ l : List Char, (trimChars l).head? = some '#' →
        ((trimChars l).dropWhile (fun c => c = '#')).length ≠ 3 →
        ((trimChars l).dropWhile (fun c => c = '#')).length ≠ 4 →
        ((trimChars l).dropWhile (fun c => c = '#')).length ≠ 6 →
        ((trimChars l).dropWhile (fun c => c = '#')).length ≠ 8 →
        normalize_ffmpeg_color l = "black".toList)
    ∧ (∀ (l body : List Char), rgbaInner (trimChars l) = some body →
        (splitCommaStrip body).length < 3 →
        normalize_ffmpeg_color l = "black".toList)
    ∧ (∀ cs : List Char, cs.length = 6 → (∀ c ∈ cs, c ∈ hexDigitList) →
        normalize_ffmpeg_color ('#' :: cs) = '0' :: 'x' :: cs.map Char.toUpper
        ∧ (cs.map Char.toUpper).map hexVal = cs.map hexVal) := by
  refine ⟨?_, ?_, ?_, ?_⟩
  · intro l htl
    have hc : trimChars l ≠ [] := by
      intro he
      rw [he, transparent_toList] at htl
      exact absurd htl (by decide)
    have hl : l ≠ [] := fun he => hc (by rw [he]; rfl)
    unfold normalize_ffmpeg_color
    rw [if_neg hl, if_neg hc, if_pos htl]
  · intro l hhead h3 h4 h6 h8
    obtain ⟨t, ht⟩ : ∃ t, trimChars l = '#' :: t := by
      cases hcand : trimChars l with
      | nil => rw [hcand] at hhead; simp at hhead
      | cons c cs =>
        rw [hcand] at hhead
        simp only [List.head?_cons, Option.some.injEq] at hhead
        exact ⟨cs, by rw [hhead]⟩
    have hl : l ≠ [] := by
      intro he; rw [he] at ht; exact absurd ht (by simp [trimChars])
    have hc : trimChars l ≠ [] := by rw [ht]; simp
    have htr : (trimChars l).map Char.toLower ≠ "transparent".toList := by
      rw [ht]; exact map_toLower_ne_transparent (by decide)
    have h0x : (startsWithChars ['0', 'x'] (trimChars l)
        || startsWithChars ['0', 'X'] (trimChars l)) = false := by
      rw [ht]; simp [startsWithChars]
    unfold normalize_ffmpeg_color
    rw [if_neg hl, if_neg hc, if_neg htr, if_neg (by simp [h0x]), if_pos hhead]
    unfold hex_color_branch
    dsimp only []
    have hin : ¬ (((trimChars l).dropWhile (fun c => c = '#')).length = 3 ∨
        ((trimChars l).dropWhile (fun c => c = '#')).length = 4) := by tauto
    rw [if_neg hin]
    have hout : ¬ (((trimChars l).dropWhile (fun c => c = '#')).length = 6 ∨
        ((trimChars l).dropWhile (fun c => c = '#')).length = 8) := by tauto
    rw [if_neg hout]
  · intro l body hrg hlen
    obtain ⟨c, t, hct, hlow⟩ :
        ∃ c t, trimChars l = c :: t ∧ Char.toLower c = 'r' := by
      have hpre : startsWithChars ("rgba(".toList) ((trimChars l).map Char.toLower) = true
          ∨ startsWithChars ("rgb(".toList) ((trimChars l).map Char.toLower) = true := by
        unfold rgbaInner at hrg
        by_cases h5 : startsWithChars ("rgba(".toList) ((trimChars l).map Char.toLower) = true
        · exact Or.inl h5
        · rw [if_neg h5] at hrg
          by_cases h4' : startsWithChars ("rgb(".toList) ((trimChars l).map Char.toLower) = true
          · exact Or.inr h4'
          · rw [if_neg h4'] at hrg; exact absurd hrg (by simp)
      have hr : ∃ t', (trimChars l).map Char.toLower = 'r' :: t' := by
        rcases hpre with h | h
        · exact startsWithChars_cons (show startsWithChars ('r' :: "gba(".toList) _ = true from h)
        · exact startsWithChars_cons (show startsWithChars ('r' :: "gb(".toList) _ = true from h)
      obtain ⟨t', ht'⟩ := hr
      cases hcand : trimChars l with
      | nil => rw [hcand] at ht'; exact absurd ht' (by simp)
      | cons c cs =>
        rw [hcand, List.map_cons] at ht'
        exact ⟨c, cs, rfl, List.head_eq_of_cons_eq ht'⟩
    have hl : l ≠ [] := by
      intro he; rw [he] at hct; exact absurd hct (by simp [trimChars])
    have hc : trimChars l ≠ [] := by rw [hct]; simp
    have htr : (trimChars l).map Char.toLower ≠ "transparent".toList := by
      rw [hct]
      exact map_toLower_ne_transparent (by rw [hlow]; decide)
    have hc0 : ¬ ('0' = c) := by
      intro h; rw [← h] at hlow; exact absurd hlow (by decide)
    have hchash : ¬ (c = '#') := by
      intro h; rw [h] at hlow; exact absurd hlow (by decide)
    have h0x : (startsWithChars ['0', 'x'] (trimChars l)
        || startsWithChars ['0', 'X'] (trimChars l)) = false := by
      rw [hct]; simp [startsWithChars, hc0]
    have hhead : ¬ ((trimChars l).head? = some '#') := by
      rw [hct]; simp [hchash]
    unfold normalize_ffmpeg_color
    rw [if_neg hl, if_neg hc, if_neg htr, if_neg (by simp [h0x]), if_neg hhead, hrg]
    show rgba_color_branch body = "black".toList
    unfold rgba_color_branch
    rw [if_neg (show ¬ 3 ≤ (splitCommaStrip body).length from by omega)]
  · intro cs hlen hhex
    have hspace : ∀ c ∈ '#' :: cs, isSpaceChar c = false := by
      intro c hcmem
      rcases List.mem_cons.mp hcmem with h | h
      · rw [h]; decide
      · exact (hex_digit_facts c (hhex c h)).1
    have htrim : trimChars ('#' :: cs) = '#' :: cs := trimChars_eq_self hspace
    have hl : ('#' :: cs : List Char) ≠ [] := by simp
    have hc : trimChars ('#' :: cs) ≠ [] := by rw [htrim]; simp
    have htr : (trimChars ('#' :: cs)).map Char.toLower ≠ "transparent".toList := by
      rw [htrim]; exact map_toLower_ne_transparent (by decide)
    have h0x : (startsWithChars ['0', 'x'] (trimChars ('#' :: cs))
        || startsWithChars ['0', 'X'] (trimChars ('#' :: cs))) = false := by
      rw [htrim]; simp [startsWithChars]
    have hhead : (trimChars ('#' :: cs)).head? = some '#' := by rw [htrim]; rfl
    have hdrop : ('#' :: cs).dropWhile (fun c => c = '#') = cs := by
      cases cs with
      | nil => simp at hlen
      | cons c1 rest =>
        have hc1 : (c1 = '#') = false := (hex_digit_facts c1 (hhex c1 (by simp))).2.1
        simp [List.dropWhile_cons, hc1]
    constructor
    · unfold normalize_ffmpeg_color
      rw [if_neg hl, if_neg hc, if_neg htr, if_neg (by simp [h0x]), if_pos hhead]
      unfold hex_color_branch
      rw [htrim]
      dsimp only []
      simp [hdrop, hlen]
    · rw [List.map_map]
      apply List.map_congr_left
      intro c hcm
      exact (hex_digit_facts c (hhex c hcm)).2.2

/-- Witness for C7: the four parts of `color_normalizer_contract`
instantiated at concrete inputs. -/
theorem color_normalizer_contract_witness :
    normalize_ffmpeg_color "Transparent".toList = "0x00000000".toList
    ∧ normalize_ffmpeg_color "#12345".toList = "black".toList
    ∧ normalize_ffmpeg_color "rgba(1,2)".toList = "black".toList
    ∧ normalize_ffmpeg_color ('#' :: "a1b2c3".toList) =
        '0' :: 'x' :: "a1b2c3".toList.map Char.toUpper := by
  refine ⟨color_normalizer_contract.1 _ (by decide),
    color_normalizer_contract.2.1 _ (by decide) (by decide) (by decide) (by decide) (by decide),
    color_normalizer_contract.2.2.1 _ "1,2".toList (by decide) (by decide),
    (color_normalizer_contract.2.2.2 "a1b2c3".toList (by decide) (by decide)).1⟩

/-- C10 (implicit): an input whose stripped form begins with `0x` or `0X` is
returned as that stripped form, unchanged — no length or hex-digit
validation, never degraded to `"black"`. -/
theorem color_0x_passthrough (l : List Char)
    (h : startsWithChars ['0', 'x'] (trimChars l) = true ∨
         startsWithChars ['0', 'X'] (trimChars l) = true) :
    normalize_ffmpeg_color l = trimChars l := by
  obtain ⟨t, ht⟩ : ∃ t, trimChars l = '0' :: t := by
    rcases h with h | h
    · exact startsWithChars_cons h
    · exact startsWithChars_cons h
  have hl : l ≠ [] := by
    intro he; rw [he] at ht; exact absurd ht (by simp [trimChars])
  have hc : trimChars l ≠ [] := by rw [ht]; simp
  have htr : (trimChars l).map Char.toLower ≠ "transparent".toList := by
    rw [ht]; exact map_toLower_ne_transparent (by decide)
  have h0x : (startsWithChars ['0', 'x'] (trimChars l)
      || startsWithChars ['0', 'X'] (trimChars l)) = true := by
    rcases h with h | h <;> simp [h]
  unfold normalize_ffmpeg_color
  rw [if_neg hl, if_neg hc, if_neg htr, if_pos (by simp [h0x])]

/-- Witness for C10: a `0x` value with non-hex characters passes through. -/
theorem color_0x_passthrough_witness :
    normalize_ffmpeg_color "  0xZZZ ".toList = "0xZZZ".toList := by
  exact (color_0x_passthrough "  0xZZZ ".toList (Or.inl (by decide))).trans (by decide)

/-! ### The Slide Render Scheduler claim -/

/-- C1: with every slide succeeding, `render_slides_parallel` returns exactly
one output path per slide, in input-index order, the path at position `i`
encoding the zero-padded index `i`; with any slide failing it produces a
single aggregate error carrying exactly the failed indices, and no partial
path list. -/
theorem render_slides_parallel_contract (work_dir : String) (outcomes : List Bool) :
    ((∀ b ∈ outcomes, b = true) →
        render_slides_parallel work_dir outcomes =
          Except.ok ((List.range outcomes.length).map (slide_output_path work_dir)))
    ∧ (∀ paths, render_slides_parallel work_dir outcomes = Except.ok paths →
        paths.length = outcomes.length ∧
        ∀ i, i < outcomes.length → paths.getD i "" = slide_output_path work_dir i)
    ∧ ((∃ b ∈ outcomes, b = false) →
        render_slides_parallel work_dir outcomes = Except.error (failed_indices outcomes))
    ∧ (∀ i, i ∈ failed_indices outcomes ↔
        i < outcomes.length ∧ outcomes.getD i true = false) := by
  have hmem : ∀ i, i ∈ failed_indices outcomes ↔
      i < outcomes.length ∧ outcomes.getD i true = false := by
    intro i
    simp [failed_indices, List.mem_filter, List.mem_range]
  refine ⟨?_, ?_, ?_, hmem⟩
  · intro hall
    have hemp : failed_indices outcomes = [] := by
      unfold failed_indices
      rw [List.filter_eq_nil_iff]
      intro a ha
      have hlt : a < outcomes.length := List.mem_range.mp ha
      rw [List.getD_eq_getElem _ _ hlt]
      simp [hall _ (outcomes.getElem_mem hlt)]
    unfold render_slides_parallel
    dsimp only []
    rw [hemp]
    rfl
  · intro paths hp
    unfold render_slides_parallel at hp
    dsimp only [] at hp
    by_cases hif : (failed_indices outcomes).isEmpty
    · rw [if_pos hif] at hp
      have hpe : ((List.range outcomes.length).map (slide_output_path work_dir)) = paths := by
        simpa using hp
      subst hpe
      refine ⟨by simp, ?_⟩
      intro i hi
      exact getD_map_range _ _ i hi _
    · rw [if_neg hif] at hp
      exact absurd hp (by simp)
  · rintro ⟨b, hbmem, hbf⟩
    obtain ⟨n, hn, hget⟩ := List.mem_iff_getElem.mp hbmem
    have hnf : n ∈ failed_indices outcomes := by
      rw [hmem n]
      refine ⟨hn, ?_⟩
      rw [List.getD_eq_getElem _ _ hn, hget, hbf]
    have hne : ¬ (failed_indices outcomes).isEmpty := by
      intro hto
      rw [List.isEmpty_iff.mp hto] at hnf
      exact absurd hnf (List.not_mem_nil _)
    unfold render_slides_parallel
    dsimp only []
    rw [if_neg hne]

/-- Witness for C1: both branches of the contract at concrete inputs. -/
theorem render_slides_parallel_contract_witness :
    render_slides_parallel "w" [true, true] =
      Except.ok ["w/slide_000.mp4", "w/slide_001.mp4"]
    ∧ render_slides_parallel "w" [true, false, true, false] =
      Except.error [1, 3] := by
  constructor
  · exact ((render_slides_parallel_contract "w" [true, true]).1 (by decide)).trans (by rfl)
  · exact ((render_slides_parallel_contract "w" [true, false, true, false]).2.2.1
      ⟨false, by decide, rfl⟩).trans (by rfl)

/-! ### The Subtitle Timing Generator allocation claim -/

theorem add_to_last_sum (d : ℤ) : ∀ l : List ℤ, l ≠ [] → (add_to_last l d).sum = l.sum + d
  | [], hne => absurd rfl hne
  | [x], _ => by simp [add_to_last]
  | x :: y :: rest, _ => by
    have ih := add_to_last_sum d (y :: rest) (by simp)
    simp only [add_to_last, List.sum_cons] at ih ⊢
    omega

theorem add_to_last_length (d : ℤ) : ∀ l : List ℤ, (add_to_last l d).length = l.length
  | [] => rfl
  | [_] => rfl
  | x :: y :: rest => by
    have ih := add_to_last_length d (y :: rest)
    simp only [add_to_last, List.length_cons] at ih ⊢
    omega

/-- C4: per-word reveal allocations are `max(1, round(T·w/Σw))` with the
rounding remainder folded into the last word, so they always sum exactly to
the total centiseconds `T`; `"cat dog"` over 100 cs gives `[50, 50]` and
`"a bb"` gives `[33, 67]`; a 1-second chunk spans 100 centiseconds. -/
theorem karaoke_word_allocation (ws : List ℕ) (T : ℤ) (hws : ws ≠ []) :
    (word_allocations ws T).sum = T
    ∧ (word_allocations ws T).length = ws.length
    ∧ word_weights "cat dog".toList = [3, 3]
    ∧ word_allocations [3, 3] 100 = [50, 50]
    ∧ word_weights "a bb".toList = [1, 2]
    ∧ word_allocations [1, 2] 100 = [33, 67]
    ∧ total_centiseconds 1 = 100 := by
  have halloc : ws.map (fun (w : ℕ) =>
      max 1 (python_round_frac (T * (w : ℤ)) ((total_weight ws : ℤ)))) ≠ [] := by
    intro hmap
    exact hws (List.map_eq_nil_iff.mp hmap)
  constructor
  · unfold word_allocations
    dsimp only []
    by_cases hd : T - (ws.map (fun (w : ℕ) =>
        max 1 (python_round_frac (T * (w : ℤ)) ((total_weight ws : ℤ))))).sum = 0
    · rw [if_pos hd]; omega
    · rw [if_neg hd, add_to_last_sum _ _ halloc]; omega
  refine ⟨?_, by decide, by decide, by decide, by decide, by decide⟩
  unfold word_allocations
  dsimp only []
  by_cases hd : T - (ws.map (fun (w : ℕ) =>
      max 1 (python_round_frac (T * (w : ℤ)) ((total_weight ws : ℤ))))).sum = 0
  · rw [if_pos hd, List.length_map]
  · rw [if_neg hd, add_to_last_length, List.length_map]

/-- Witness for C4 at a total that needs the remainder correction. -/
theorem karaoke_word_allocation_witness :
    (word_allocations [3, 3] 7).sum = 7 :=
  (karaoke_word_allocation [3, 3] 7 (by decide)).1

/-! ### The Resolution Policy claim -/

/-- C8: `final` returns the input unchanged; `draft` scales the short edge to
540 preserving the aspect ratio — for landscape (`h < w`) the height is 540
and the width is `⌊540·w/h⌋ = (540·w)/h` rounded up to the next even integer,
symmetrically otherwise — and both draft dimensions are always even. -/
theorem quality_resolution_policy (w h : ℕ) (hw : 0 < w) (hh : 0 < h) :
    get_quality_resolution w h "final" = (w, h)
    ∧ (h < w → get_quality_resolution w h "draft" =
        ((540 * w) / h + ((540 * w) / h) % 2, 540))
    ∧ (w ≤ h → get_quality_resolution w h "draft" =
        (540, (540 * h) / w + ((540 * h) / w) % 2))
    ∧ (get_quality_resolution w h "draft").1 % 2 = 0
    ∧ (get_quality_resolution w h "draft").2 % 2 = 0 := by
  have hhq : (0 : ℚ) < (h : ℚ) := by exact_mod_cast hh
  have hwq : (0 : ℚ) < (w : ℚ) := by exact_mod_cast hw
  have haspect : (1 < (w : ℚ) / (h : ℚ)) ↔ h < w := by
    rw [one_lt_div hhq]
    exact_mod_cast Iff.rfl
  have hfloor1 : (⌊(540 : ℚ) * ((w : ℚ) / (h : ℚ))⌋).toNat = (540 * w) / h := by
    have heq : (540 : ℚ) * ((w : ℚ) / (h : ℚ)) = ((540 * w : ℕ) : ℚ) / ((h : ℕ) : ℚ) := by
      push_cast; ring
    rw [heq, Int.floor_toNat, Nat.floor_div_nat, Nat.floor_natCast]
  have hfloor2 : (⌊(540 : ℚ) / ((w : ℚ) / (h : ℚ))⌋).toNat = (540 * h) / w := by
    have heq : (540 : ℚ) / ((w : ℚ) / (h : ℚ)) = ((540 * h : ℕ) : ℚ) / ((w : ℕ) : ℚ) := by
      rw [div_div_eq_mul_div]; push_cast; ring
    rw [heq, Int.floor_toNat, Nat.floor_div_nat, Nat.floor_natCast]
  have hland : h < w → get_quality_resolution w h "draft" =
      ((540 * w) / h + ((540 * w) / h) % 2, 540) := by
    intro hlt
    unfold get_quality_resolution
    rw [if_neg (by decide)]
    dsimp only []
    rw [if_pos (haspect.mpr hlt), hfloor1]
    simp
  have hport : w ≤ h → get_quality_resolution w h "draft" =
      (540, (540 * h) / w + ((540 * h) / w) % 2) := by
    intro hle
    unfold get_quality_resolution
    rw [if_neg (by decide)]
    dsimp only []
    rw [if_neg (by rw [haspect]; omega), hfloor2]
    simp
  refine ⟨by simp [get_quality_resolution], hland, hport, ?_, ?_⟩
  · rcases Nat.lt_or_ge h w with hlt | hge
    · rw [hland hlt]; dsimp only []; omega
    · rw [hport hge]; norm_num
  · rcases Nat.lt_or_ge h w with hlt | hge
    · rw [hland hlt]; norm_num
    · rw [hport hge]; dsimp only []; omega

/-- Witness for C8: a 1080×1920 portrait input kept by `final` and a
1920×1080 landscape input scaled by `draft`. -/
theorem quality_resolution_policy_witness :
    get_quality_resolution 1080 1920 "final" = (1080, 1920)
    ∧ get_quality_resolution 1920 1080 "draft" = (960, 540) := by
  refine ⟨(quality_resolution_policy 1080 1920 (by norm_num) (by norm_num)).1, ?_⟩
  have hd := (quality_resolution_policy 1920 1080 (by norm_num) (by norm_num)).2.1 (by norm_num)
  rw [hd]

/-! ### The boundary-transition claim -/

/-- C2: boundary `i` uses the outgoing slide's transition request, falling
back to the incoming slide's own request; the effective duration is the
requested duration clamped to `min(requested, dur[i], dur[i+1])`, a
non-positive clamp yields no transition, and any emitted boundary transition
never exceeds either adjacent slide's duration. -/
theorem boundary_transition_resolution (specs : List (Option TransitionReq))
    (durations : List ℚ) (i : ℕ) (hi : i + 1 < durations.length) :
    ((resolve_boundaries specs durations).getD i none =
      (match (match specs.getD i none with
              | some t => some t
              | none => specs.getD (i + 1) none) with
       | none => none
       | some t =>
         if 0 < min (min t.duration (durations.getD i 0)) (durations.getD (i + 1) 0)
         then some ⟨t.ttype, min (min t.duration (durations.getD i 0)) (durations.getD (i + 1) 0)⟩
         else none))
    ∧ ∀ t, (resolve_boundaries specs durations).getD i none = some t →
        t.duration ≤ durations.getD i 0 ∧ t.duration ≤ durations.getD (i + 1) 0 := by
  have hival : i < durations.length - 1 := by omega
  have hbody : (resolve_boundaries specs durations).getD i none =
      (match (match specs.getD i none with
              | some t => some t
              | none => specs.getD (i + 1) none) with
       | none => none
       | some t =>
         if 0 < min (min t.duration (durations.getD i 0)) (durations.getD (i + 1) 0)
         then some ⟨t.ttype, min (min t.duration (durations.getD i 0)) (durations.getD (i + 1) 0)⟩
         else none) := by
    unfold resolve_boundaries
    exact getD_map_range _ _ i hival none
  refine ⟨hbody, ?_⟩
  intro t ht
  rw [hbody] at ht
  rcases hch : (match specs.getD i none with
      | some t => some t
      | none => specs.getD (i + 1) none) with _ | ⟨u⟩
  · rw [hch] at ht; exact absurd ht (by simp)
  · rw [hch] at ht
    dsimp only [] at ht
    by_cases hpos :
        0 < min (min u.duration (durations.getD i 0)) (durations.getD (i + 1) 0)
    · rw [if_pos hpos] at ht
      have htd : t.duration =
          min (min u.duration (durations.getD i 0)) (durations.getD (i + 1) 0) := by
        injection ht with ht2
        rw [← ht2]
      constructor
      · rw [htd]
        exact le_trans (min_le_left _ _) (min_le_right _ _)
      · rw [htd]
        exact min_le_right _ _
    · rw [if_neg hpos] at ht
      exact absurd ht (by simp)

/-- Witness for C2: the fallback to the incoming slide's request, with the
requested duration 5 clamped to the adjacent durations 2 and 3. -/
theorem boundary_transition_resolution_witness :
    (resolve_boundaries [none, some ⟨"fade", 5⟩] [2, 3]).getD 0 none = some ⟨"fade", 2⟩ := by
  have h := boundary_transition_resolution [none, some ⟨"fade", 5⟩] [2, 3] 0 (by norm_num)
  rw [h.1]
  decide

/-! ### The Timeline Builder claims -/

/-- Counterexample for C3: on durations `[2, 3, 2]` with a requested duration
of 10 at boundary 0 and none at boundary 1, the loop's final
`current_duration` is 5 — the recurrence `2 + (3 − 2) + 2` — not the spec's
stated 7. -/
theorem timeline_example_counterexample :
    final_duration [some ⟨"fade", 10⟩, none] [2, 3, 2] = 5 ∧ (5 : ℚ) ≠ 7 := by
  constructor
  · norm_num [final_duration, concat_steps, concat_steps_go, transition_type_map,
      List.getD, min_def, max_def]
  · norm_num

/-- C3 as amended: the requested duration 10 is clamped to 2, the first
blend's offset is `0 = 2 − 2`, `current_duration` evolves
`2 → 2 + 3 − 2 = 3 → 3 + 2 = 5` (transition boundary then hard join), and the
final value is 5. -/
theorem timeline_example_amended :
    concat_steps [some ⟨"fade", 10⟩, none] [2, 3, 2] =
      [(JoinStep.blend "fade" 2 0, 3), (JoinStep.hard, 5)]
    ∧ final_duration [some ⟨"fade", 10⟩, none] [2, 3, 2] = 5 := by
  constructor <;>
    norm_num [final_duration, concat_steps, concat_steps_go, transition_type_map,
      List.getD, min_def, max_def]

/-- Counterexample for C6: at `concat_videos_ffmpeg`'s own interface an
all-absent transitions list takes the stream-copy path, but a transitions
list whose entry is an explicit zero-duration dict is truthy, takes the
filter path and degrades the boundary to a re-encoded hard join — the two
behaviors differ. -/
theorem concat_zero_duration_counterexample :
    concat_videos_plan ["a", "b"] [none] (some [1, 1]) = ConcatPlan.streamCopy ["a", "b"]
    ∧ concat_videos_plan ["a", "b"] [some ⟨"fade", 0⟩] (some [1, 1]) =
        ConcatPlan.reencode [JoinStep.hard]
    ∧ concat_videos_plan ["a", "b"] [some ⟨"fade", 0⟩] (some [1, 1]) ≠
        concat_videos_plan ["a", "b"] [none] (some [1, 1]) := by
  refine ⟨?_, ?_, ?_⟩
  · norm_num [concat_videos_plan]
  · norm_num [concat_videos_plan, concat_steps, concat_steps_go, List.getD]
  · norm_num [concat_videos_plan, concat_steps, concat_steps_go, List.getD]
    decide

/-- C6 as amended: an all-absent transitions list stream-copies; the
identical plain-concat behavior for explicitly zero-duration *requests* holds
one level up — `_parse_transition_spec` maps any non-positive-duration
request to absent, and the boundary resolution of all-absent parsed specs
yields all-absent boundaries — so both inputs reach the joiner as all-absent
and take the stream-copy path. -/
theorem concat_zero_duration_amended (paths : List String) (ds : Option (List ℚ))
    (ts : List (Option TransitionReq)) (hall : ∀ t ∈ ts, t = none) :
    concat_videos_plan paths ts ds = ConcatPlan.streamCopy paths
    ∧ (∀ raw : TransitionRaw, (∀ q, raw.rawDuration = some q → q ≤ 0) →
        parse_transition_spec (some raw) = none)
    ∧ (∀ (specs : List (Option TransitionReq)) (durs : List ℚ),
        (∀ sp ∈ specs, sp = none) →
        ∀ b ∈ resolve_boundaries specs durs, b = none) := by
  refine ⟨?_, ?_, ?_⟩
  · have hany : ts.any Option.isSome = false := by
      rw [List.any_eq_false]
      intro t htm
      rw [hall t htm]
      simp
    unfold concat_videos_plan
    rw [if_pos hany]
  · intro raw hq
    unfold parse_transition_spec
    dsimp only []
    by_cases hty : ((raw.rawType.getD "").trim.toLower = "fade"
        ∨ (raw.rawType.getD "").trim.toLower = "crossfade"
        ∨ (raw.rawType.getD "").trim.toLower = "dissolve")
    · rw [if_pos hty]
      cases hrd : raw.rawDuration with
      | none => rfl
      | some q =>
        dsimp only []
        rw [if_pos (hq q hrd)]
    · rw [if_neg hty]
  · intro specs durs hspecs b hb
    have hget : ∀ j, specs.getD j none = none := by
      intro j
      rcases Nat.lt_or_ge j specs.length with hj | hj
      · rw [List.getD_eq_getElem _ _ hj]
        exact hspecs _ (specs.getElem_mem hj)
      · exact List.getD_eq_default _ _ hj
    unfold resolve_boundaries at hb
    obtain ⟨idx, hidx, hbe⟩ := List.mem_map.mp hb
    rw [← hbe]
    dsimp only []
    rw [hget idx, hget (idx + 1)]

/-- Witness for C6: the theorem applied to an all-absent list and to a
zero-duration raw request. -/
theorem concat_zero_duration_amended_witness :
    concat_videos_plan ["a", "b", "c"] [none, none] (some [1, 1, 1]) =
      ConcatPlan.streamCopy ["a", "b", "c"]
    ∧ parse_transition_spec (some ⟨some "fade", some 0⟩) = none := by
  refine ⟨(concat_zero_duration_amended ["a", "b", "c"] (some [1, 1, 1]) [none, none]
      (by simp)).1,
    (concat_zero_duration_amended [] none [] (by simp)).2.1 ⟨some "fade", some 0⟩ ?_⟩
  intro q hq
  injection hq with hq2
  rw [← hq2]

/-! ### The subtitle duration-resolution claim -/

/-- Counterexample for C9: a chunk of 10 characters with an explicit duration
of −1 resolves to `max(0.5, 0.6) = 0.6`, not to the claimed estimate
`max(1.0, 0.6) = 1.0`. -/
theorem duration_replacement_counterexample :
    resolve_chunk_duration (some (-1)) none 0 none 10 = 3 / 5
    ∧ (3 / 5 : ℚ) ≠ max 1 ((10 : ℚ) * (6 / 100)) := by
  constructor
  · norm_num [resolve_chunk_duration, chunk_pre_duration, chunk_estimate_fallback, max_def]
  · norm_num [max_def]

/-- C9 as amended: the priority chain is explicit duration, then
`end − start`, then the audio duration, then `max(1.0, 0.06·len)`; a
non-positive resolved value is replaced — never raised — by the *different*
floor `max(0.5, 0.06·len)` (`1.0` for empty text). -/
theorem duration_resolution_amended (df ef : Option ℚ) (s : ℚ) (ad : Option ℚ) (n : ℕ) :
    (∀ d, df = some d → 0 < d → resolve_chunk_duration df ef s ad n = d)
    ∧ (∀ e, df = none → ef = some e → 0 < e - s →
        resolve_chunk_duration df ef s ad n = e - s)
    ∧ (∀ a, df = none → ef = none → ad = some a → 0 < a →
        resolve_chunk_duration df ef s ad n = a)
    ∧ (df = none → ef = none → ad = none →
        resolve_chunk_duration df ef s ad n = max 1 ((n : ℚ) * (6 / 100)))
    ∧ (chunk_pre_duration df ef s ad n ≤ 0 →
        resolve_chunk_duration df ef s ad n = chunk_estimate_fallback n) := by
  refine ⟨?_, ?_, ?_, ?_, ?_⟩
  · intro d hdf hdpos
    subst hdf
    unfold resolve_chunk_duration chunk_pre_duration
    dsimp only []
    rw [if_neg (not_le.mpr hdpos)]
  · intro e hdf hef hpos
    subst hdf; subst hef
    unfold resolve_chunk_duration chunk_pre_duration
    dsimp only []
    rw [max_eq_right (le_of_lt hpos), if_neg (not_le.mpr hpos)]
  · intro a hdf hef had hpos
    subst hdf; subst hef; subst had
    unfold resolve_chunk_duration chunk_pre_duration
    dsimp only []
    rw [if_neg (not_le.mpr hpos)]
  · intro h1 h2 h3
    subst h1; subst h2; subst h3
    unfold resolve_chunk_duration chunk_pre_duration
    dsimp only []
    rw [if_neg (not_le.mpr (lt_of_lt_of_le zero_lt_one (le_max_left _ _)))]
  · intro hpre
    unfold resolve_chunk_duration
    dsimp only []
    rw [if_pos hpre]

/-- Witness for C9: a positive explicit duration wins unchanged. -/
theorem duration_resolution_amended_witness :
    resolve_chunk_duration (some 2) none 0 none 5 = 2 :=
  (duration_resolution_amended (some 2) none 0 none 5).1 2 rfl (by norm_num)

/-! ### The subtitle absolute-timing claim -/

/-- C5 (code bug): for a slide group at running offset 2 and a chunk with
intra-slide start 0 and end 1, the emitted absolute start is `2 + 0 = 2` as
specified, but the absolute end is `2 + max(2, 1) = 4` — the source adds the
offset a second time through the already-shifted `chunk_start` — instead of
the specified `offset + end = 3`. -/
theorem chunk_absolute_end_bug :
    chunk_abs_start 2 0 = 2
    ∧ chunk_abs_end 2 0 1 = 4
    ∧ chunk_abs_end 2 0 1 ≠ 2 + 1 := by
  refine ⟨?_, ?_, ?_⟩ <;>
    norm_num [chunk_abs_start, chunk_abs_end, max_def]
